import Mathlib

/-!
# go-ax: threshold-crossing and contract-interaction detectors

A shallow embedding of `checkTransactions.go` and `checkWallet.go`.

Conventions of the embedding

* Go strings are Lean `String`s (the strings reach the code through
  `encoding/json`, which only produces valid UTF-8); Go compares strings
  bytewise, which on valid UTF-8 is the code point order used by `<` here.
* `int` and `int64` are `Int` with an explicit wrap-around at 64 bits where the
  code does arithmetic (`wrap64`).
* `*big.Int` is `Option Int`: `none` is the nil pointer.
* The HTTP queries are inputs: the answer of the upstream service is passed as
  an `Except String _` (an `error` or the decoded value).
* A run-time panic is an explicit outcome (`Except Panic _`).
* Library behaviour that is not fixed by the Go documentation or needs tables
  of the standard library is passed as a parameter: the order `sort.Slice`
  leaves equal elements in, and the Unicode fold orbits used by
  `strings.EqualFold` on non-ASCII runes.
-/

namespace GoAx

/-! ## Machine integers -/

/-- Two's complement wrap-around of a 64 bit signed integer. -/
def wrap64 (x : Int) : Int :=
  (x + 2 ^ 63) % 2 ^ 64 - 2 ^ 63

/-! ## Data model -/

/-- `type Request struct` of checkWallet.go. -/
structure Request where
  Threshold : String
  WalletAddress : String
  deriving DecidableEq, Repr

/-- `type Transaction struct` of checkWallet.go. -/
structure Transaction where
  Hash : String
  Value : String
  From : String
  To : String
  TransactionType : String
  BlockTime : String
  BlockNumber : Int
  deriving DecidableEq, Repr

/-- `type DuneTransactionsResponse struct` of checkWallet.go. -/
structure DuneTransactionsResponse where
  Transactions : List Transaction
  deriving DecidableEq, Repr

/-- `type Balance struct` of checkWallet.go. -/
structure Balance where
  Amount : String
  deriving DecidableEq, Repr

/-- `type Result struct` of checkTransactions.go. -/
structure Result where
  BlockNumber : Int
  TxHash : String
  Sender : String
  Success : Bool
  deriving DecidableEq, Repr

deriving instance DecidableEq for Except

/-- A run-time panic of the Go program. -/
inductive Panic where
  | nilDereference
  deriving DecidableEq, Repr

/-- What an HTTP handler writes: `http.Error(w, msg, code)` or a JSON body
`{"threshold_crossed": b}` with status 200. -/
inductive Response where
  | httpError (code : Nat) (msg : String)
  | thresholdCrossed (b : Bool)
  deriving DecidableEq, Repr

/-! ## `math/big`: `(*Int).SetString` for the bases 10 and 16 -/

/-- Digit value of a byte in `nat.scan`; `63` (`MaxBase + 1`) is "not a digit". -/
def digitVal (c : Char) : Nat :=
  if 48 ≤ c.toNat ∧ c.toNat ≤ 57 then c.toNat - 48
  else if 97 ≤ c.toNat ∧ c.toNat ≤ 122 then c.toNat - 97 + 10
  else if 65 ≤ c.toNat ∧ c.toNat ≤ 90 then c.toNat - 65 + 10
  else 63

/-- The digit loop of `nat.scan`: returns the value read, the number of digits
read, and the unread rest of the input. -/
def scanDigits (base : Nat) : List Char → Nat → Nat → Nat × Nat × List Char
  | [], acc, count => (acc, count, [])
  | c :: cs, acc, count =>
    if base ≤ digitVal c then (acc, count, c :: cs)
    else scanDigits base cs (acc * base + digitVal c) (count + 1)

/-- The scan behind `z.SetString(s, base)`: the value left in the receiver `z`
(a fresh `Int`, so `0` when nothing was stored) and whether the call succeeded.
The call succeeds when `s` is an optional sign followed by at least one digit
of the base and nothing else. -/
def scanInt (s : String) (base : Nat) : Int × Bool :=
  match s.data with
  | [] => (0, false)
  | c :: cs =>
    let neg := c = '-'
    let body := if c = '-' ∨ c = '+' then cs else c :: cs
    match scanDigits base body 0 0 with
    | (v, count, rest) =>
      if count = 0 then (0, false)
      else ((if neg then -(v : Int) else (v : Int)), rest.isEmpty)

/-- The pointer returned by `new(big.Int).SetString(s, base)`: nil on failure. -/
def SetString (s : String) (base : Nat) : Option Int :=
  if (scanInt s base).2 then some (scanInt s base).1 else none

/-- The value of `z` after `z := new(big.Int); z.SetString(s, base)` with the
returned pointer ignored. -/
def setStringInPlace (s : String) (base : Nat) : Int :=
  (scanInt s base).1

/-- `strings.TrimPrefix(s, "0x")`. -/
def trimPrefix0x (s : String) : String :=
  match s.data with
  | '0' :: 'x' :: rest => String.mk rest
  | _ => s

/-! ## `strings.EqualFold` -/

/-- One step of `strings.EqualFold`: whether the runes `sr` and `tr` are equal
under simple case folding. For two ASCII runes this is the code of the
function; for a pair with a non-ASCII rune the function walks the orbit of
`unicode.SimpleFold`, which is the parameter `orbit lo hi` (called with
`lo < hi`). -/
def foldEqRune (orbit : Nat → Nat → Bool) (sr tr : Char) : Bool :=
  if tr = sr then true
  else
    let lo := min sr.toNat tr.toNat
    let hi := max sr.toNat tr.toNat
    if hi < 128 then decide (65 ≤ lo ∧ lo ≤ 90 ∧ hi = lo + 32)
    else orbit lo hi

/-- `strings.EqualFold` on the runes of the two strings. -/
def equalFoldRunes (orbit : Nat → Nat → Bool) : List Char → List Char → Bool
  | [], t => t.isEmpty
  | _ :: _, [] => false
  | sr :: s, tr :: t => foldEqRune orbit sr tr && equalFoldRunes orbit s t

/-- `strings.EqualFold(s, t)`. -/
def EqualFold (orbit : Nat → Nat → Bool) (s t : String) : Bool :=
  equalFoldRunes orbit s.data t.data

/-! ## checkTransactions.go -/

/-- `checkWalletInteraction(walletAddress, transactions)`; `queryCurrentBlock2`
is the outcome of the call of that name. -/
def checkWalletInteraction (orbit : Nat → Nat → Bool)
    (queryCurrentBlock2 : Except String Int)
    (walletAddress : String) (transactions : List Result) : Except String Bool :=
  match queryCurrentBlock2 with
  | .error err => .error err
  | .ok currentBlockNumber =>
    .ok (transactions.any fun tx =>
      decide (tx.BlockNumber ≥ wrap64 (currentBlockNumber - 100))
        && EqualFold orbit tx.Sender walletAddress && tx.Success)

/-! ## checkWallet.go -/

/-- The `less` function handed to `sort.Slice`:
`transactions[i].BlockTime > transactions[j].BlockTime`. -/
def less (a b : Transaction) : Prop :=
  b.BlockTime.data < a.BlockTime.data

instance less.decidable : DecidableRel less :=
  fun a b => inferInstanceAs (Decidable (b.BlockTime.data < a.BlockTime.data))

/-- What the documentation of `sort.Slice` promises of the slice it leaves
behind: a rearrangement of the input in which no later element is `less` than
an earlier one. The order of elements that compare equal is not fixed. -/
def SortSliceSpec (srt : List Transaction → List Transaction) : Prop :=
  ∀ l, (srt l).Perm l ∧ (srt l).Pairwise (fun a b => ¬ less b a)

/-- The inner loop of the insertion sort of package `sort`,
`for j := i; j > a && less(j, j-1); j-- { swap(j, j-1) }`,
on the already sorted part held in reverse (last element first). -/
def sinkLeft (x : Transaction) : List Transaction → List Transaction
  | [] => [x]
  | y :: ys => if less x y then y :: sinkLeft x ys else x :: y :: ys

/-- The insertion sort of package `sort`, with `less` as above: the sort that
`sort.Slice` runs on a short slice. A longer slice goes through the
pattern-defeating quicksort of the package, which is not stable and is not
modelled here: every general statement takes the sort as a parameter bound by
`SortSliceSpec`, and this function only supplies the sort at concrete slices
of one or two transfers. -/
def sortSlice (l : List Transaction) : List Transaction :=
  (l.foldl (fun rev x => sinkLeft x rev) []).reverse

/-- The `for _, tx := range transactions` loop of `checkThresholdCrossing`.
`currentBalanceInt` is the value parsed again from `currentBalance.Amount` in
each round, `balance` the running balance. `tx.BlockNumber` goes through
`strconv.FormatInt` and `SetString`, which always succeeds and gives the number
back, so the `!ok` branch is never taken. A nil `value` or `threshold` reaches
`balance.Sub`/`balance.Add`/`balance.Cmp`, which dereference it. -/
def replay (currentBalanceInt : Int) (threshold : Option Int) (minBlockNumber : Int) :
    Int → List Transaction → Except Panic Bool
  | _, [] => .ok false
  | balance, tx :: rest =>
    if tx.BlockNumber < minBlockNumber then .ok false
    else
      match SetString (trimPrefix0x tx.Value) 16 with
      | none => .error Panic.nilDereference
      | some value =>
        let balance := if tx.TransactionType = "Sender" then balance - value else balance + value
        match threshold with
        | none => .error Panic.nilDereference
        | some threshold =>
          if (balance > threshold ∧ currentBalanceInt ≤ threshold) ∨
              (balance < threshold ∧ currentBalanceInt ≥ threshold) then .ok true
          else replay currentBalanceInt (some threshold) minBlockNumber balance rest

/-- `checkThresholdCrossing(currentBalance, threshold, transactions)`; `srt` is
`sort.Slice` with `less`, `queryCurrentBlock2` the outcome of the call of that
name. -/
def checkThresholdCrossing (srt : List Transaction → List Transaction)
    (queryCurrentBlock2 : Except String Int)
    (currentBalance : Balance) (threshold : Option Int)
    (transactions : List Transaction) : Except Panic Bool :=
  let transactions := srt transactions
  let balance := setStringInPlace currentBalance.Amount 10
  match queryCurrentBlock2 with
  | .error _ => .ok false
  | .ok currentBlockNumber =>
    let minBlockNumber := wrap64 (currentBlockNumber - 3)
    replay (setStringInPlace currentBalance.Amount 10) threshold minBlockNumber
      balance transactions

/-- `handleCheckWallet`: `body` is the outcome of decoding the request body,
`queryDuneBalance` and `queryDuneTransactions` the outcomes of the calls of
those names for an address. The second `if err != nil` of the function tests
an error that is already known to be nil. -/
def handleCheckWallet (srt : List Transaction → List Transaction)
    (body : Except String Request)
    (queryDuneBalance : String → Except String Balance)
    (queryDuneTransactions : String → Except String DuneTransactionsResponse)
    (queryCurrentBlock2 : Except String Int) : Except Panic Response :=
  match body with
  | .error err => .ok (.httpError 400 err)
  | .ok req =>
    match queryDuneBalance req.WalletAddress with
    | .error err => .ok (.httpError 500 err)
    | .ok balanceResp =>
      match queryDuneTransactions req.WalletAddress with
      | .error err => .ok (.httpError 500 err)
      | .ok transactionsResp =>
        let threshold := SetString req.Threshold 10
        match checkThresholdCrossing srt queryCurrentBlock2 balanceResp threshold
            transactionsResp.Transactions with
        | .error p => .error p
        | .ok result => .ok (.thresholdCrossed result)



/-! ## The case forms of a string -/

/-- The ASCII strings. -/
def isASCII (s : String) : Prop :=
  ∀ c ∈ s.data, c.toNat < 128

instance isASCII.decidable (s : String) : Decidable (isASCII s) :=
  inferInstanceAs (Decidable (∀ c ∈ s.data, c.toNat < 128))

/-- The all-upper-case form of a string: every letter `a`..`z` replaced by its
capital. -/
def upperCaseForm (s : String) : String :=
  String.mk (s.data.map Char.toUpper)

/-- The all-lower-case form of a string: every letter `A`..`Z` replaced by its
small letter. -/
def lowerCaseForm (s : String) : String :=
  String.mk (s.data.map Char.toLower)

/-- Writing `s'` for `s` changes at most the case: `s'` is `s`, its upper-case
form or its lower-case form. -/
def caseVariant (s s' : String) : Prop :=
  s' = s ∨ s' = upperCaseForm s ∨ s' = lowerCaseForm s

/-- A record and a copy of it whose sender may be in another case form. -/
def senderVariant (tx tx' : Result) : Prop :=
  tx'.BlockNumber = tx.BlockNumber ∧ tx'.TxHash = tx.TxHash ∧
    tx'.Success = tx.Success ∧ caseVariant tx.Sender tx'.Sender

/-- Lower-casing on code points. -/
def lowerNat (n : Nat) : Nat :=
  if 65 ≤ n ∧ n ≤ 90 then n + 32 else n

/-- The key under which `strings.EqualFold` compares an ASCII string. -/
def foldKey (s : String) : List Nat :=
  s.data.map (fun c => lowerNat c.toNat)

/-! ## The vocabulary of the replay -/

/-- The transfer has a well-formed amount: its value, after an optional `0x`,
parses as a base-16 integer. -/
def wellFormedAmount (tx : Transaction) : Prop :=
  (SetString (trimPrefix0x tx.Value) 16).isSome = true

instance wellFormedAmount.decidable (tx : Transaction) : Decidable (wellFormedAmount tx) :=
  inferInstanceAs (Decidable ((SetString (trimPrefix0x tx.Value) 16).isSome = true))

/-- The amount of a transfer (`0` stands in when the value is malformed). -/
def amount (tx : Transaction) : Int :=
  (SetString (trimPrefix0x tx.Value) 16).getD 0

/-- The transfer is inside the window that starts at block `m`. -/
def inWindow (m : Int) (tx : Transaction) : Bool :=
  decide (tx.BlockNumber ≥ m)

/-- The running balance after the loop body has handled `tx`. -/
def applyTx (balance : Int) (tx : Transaction) : Int :=
  if tx.TransactionType = "Sender" then balance - amount tx else balance + amount tx

/-- The running balances of the loop over `l`, one per transfer, from the
starting balance `balance`. -/
def runningBalances (balance : Int) : List Transaction → List Int
  | [] => []
  | tx :: rest => applyTx balance tx :: runningBalances (applyTx balance tx) rest

/-- The replayed trajectory: the current balance followed by each running
balance. -/
def trajectory (balance : Int) (l : List Transaction) : List Int :=
  balance :: runningBalances balance l

/-- The crossing test of the loop for the running balance `r`, the current
balance `b` and the threshold `t`. -/
def crossed (b t r : Int) : Prop :=
  (r > t ∧ b ≤ t) ∨ (r < t ∧ b ≥ t)

instance crossed.decidable (b t r : Int) : Decidable (crossed b t r) :=
  inferInstanceAs (Decidable ((r > t ∧ b ≤ t) ∨ (r < t ∧ b ≥ t)))

/-- The sum of the amounts of the `"Sender"` transfers of `l`. -/
def senderSum (l : List Transaction) : Int :=
  ((l.filter fun tx => decide (tx.TransactionType = "Sender")).map amount).sum

/-- The sum of the amounts of the transfers of `l` that are not `"Sender"`
transfers. -/
def otherSum (l : List Transaction) : Int :=
  ((l.filter fun tx => decide (tx.TransactionType ≠ "Sender")).map amount).sum

/-- A sample transfer record: type, hexadecimal value, block time and block
number, with fixed hash and addresses. -/
def transfer (transactionType value blockTime : String) (blockNumber : Int) : Transaction :=
  ⟨"0x00", value, "0x01", "0x02", transactionType, blockTime, blockNumber⟩

/-! ## Lemmas: machine integers -/

theorem wrap64_eq {x : Int} (h1 : -(2 ^ 63) ≤ x) (h2 : x < 2 ^ 63) : wrap64 x = x := by
  unfold wrap64
  omega

/-! ## Lemmas: case folding of ASCII strings -/

theorem toNat_ofNat_ascii (n : Nat) (h : n < 256) : (Char.ofNat n).toNat = n := by
  have hv : n.isValidChar := Or.inl (by omega)
  unfold Char.ofNat
  rw [dif_pos hv]
  rfl

theorem char_eq_iff_toNat (a b : Char) : a = b ↔ a.toNat = b.toNat := by
  constructor
  · intro h; rw [h]
  · intro h
    rw [← Char.ofNat_toNat a, ← Char.ofNat_toNat b, h]

theorem toLower_toNat (c : Char) : c.toLower.toNat = lowerNat c.toNat := by
  unfold Char.toLower lowerNat
  simp only [ge_iff_le]
  split
  · rename_i h
    exact toNat_ofNat_ascii _ (by omega)
  · rfl

theorem toUpper_toNat (c : Char) :
    c.toUpper.toNat = if 97 ≤ c.toNat ∧ c.toNat ≤ 122 then c.toNat - 32 else c.toNat := by
  unfold Char.toUpper
  simp only [ge_iff_le]
  split
  · rename_i h
    exact toNat_ofNat_ascii _ (by omega)
  · rfl

theorem foldEqRune_ascii (orbit : Nat → Nat → Bool) (a b : Char)
    (ha : a.toNat < 128) (hb : b.toNat < 128) :
    foldEqRune orbit a b = decide (lowerNat a.toNat = lowerNat b.toNat) := by
  unfold foldEqRune lowerNat
  by_cases hab : b = a
  · subst hab; simp
  · have hne : b.toNat ≠ a.toNat := fun h => hab ((char_eq_iff_toNat b a).2 h)
    simp only [hab, if_false]
    have hhi : max a.toNat b.toNat < 128 := by omega
    simp only [hhi, if_true]
    apply Bool.eq_iff_iff.2
    simp only [decide_eq_true_eq]
    rcases Nat.lt_or_ge a.toNat b.toNat with h | h
    · rw [Nat.min_eq_left (by omega), Nat.max_eq_right (by omega)]
      split <;> split <;> omega
    · rw [Nat.min_eq_right (by omega), Nat.max_eq_left (by omega)]
      split <;> split <;> omega

theorem equalFoldRunes_ascii (orbit : Nat → Nat → Bool) :
    ∀ s t : List Char, (∀ c ∈ s, c.toNat < 128) → (∀ c ∈ t, c.toNat < 128) →
      equalFoldRunes orbit s t
        = decide (s.map (fun c => lowerNat c.toNat) = t.map (fun c => lowerNat c.toNat))
  | [], [], _, _ => by simp [equalFoldRunes]
  | [], _ :: _, _, _ => by simp [equalFoldRunes]
  | _ :: _, [], _, _ => by simp [equalFoldRunes]
  | a :: s, b :: t, hs, ht => by
    have ih := equalFoldRunes_ascii orbit s t
      (fun c hc => hs c (List.mem_cons_of_mem _ hc)) (fun c hc => ht c (List.mem_cons_of_mem _ hc))
    simp only [equalFoldRunes, ih,
      foldEqRune_ascii orbit a b (hs a (List.mem_cons_self _ _)) (ht b (List.mem_cons_self _ _)),
      List.map_cons, List.cons.injEq]
    apply Bool.eq_iff_iff.2
    simp


theorem EqualFold_ascii (orbit : Nat → Nat → Bool) (s t : String)
    (hs : isASCII s) (ht : isASCII t) :
    EqualFold orbit s t = decide (foldKey s = foldKey t) :=
  equalFoldRunes_ascii orbit s.data t.data hs ht

theorem foldKey_upperCaseForm (s : String) : foldKey (upperCaseForm s) = foldKey s := by
  unfold foldKey upperCaseForm
  simp only [List.map_map]
  apply List.map_congr_left
  intro c _
  simp only [Function.comp, toUpper_toNat, lowerNat]
  split_ifs <;> omega

theorem foldKey_lowerCaseForm (s : String) : foldKey (lowerCaseForm s) = foldKey s := by
  unfold foldKey lowerCaseForm
  simp only [List.map_map]
  apply List.map_congr_left
  intro c _
  simp only [Function.comp, toLower_toNat, lowerNat]
  split_ifs <;> omega

theorem isASCII_upperCaseForm {s : String} (h : isASCII s) : isASCII (upperCaseForm s) := by
  intro c hc
  simp only [upperCaseForm, List.mem_map] at hc
  obtain ⟨d, hd, rfl⟩ := hc
  have := h d hd
  rw [toUpper_toNat]
  split <;> omega

theorem isASCII_lowerCaseForm {s : String} (h : isASCII s) : isASCII (lowerCaseForm s) := by
  intro c hc
  simp only [lowerCaseForm, List.mem_map] at hc
  obtain ⟨d, hd, rfl⟩ := hc
  have := h d hd
  rw [toLower_toNat, lowerNat]
  split <;> omega

theorem caseVariant_foldKey {s s' : String} (h : caseVariant s s') : foldKey s' = foldKey s := by
  rcases h with h | h | h
  · rw [h]
  · rw [h, foldKey_upperCaseForm]
  · rw [h, foldKey_lowerCaseForm]

theorem caseVariant_isASCII {s s' : String} (h : caseVariant s s') (hs : isASCII s) :
    isASCII s' := by
  rcases h with h | h | h
  · rw [h]; exact hs
  · rw [h]; exact isASCII_upperCaseForm hs
  · rw [h]; exact isASCII_lowerCaseForm hs

theorem EqualFold_caseVariant (orbit : Nat → Nat → Bool) {s s' t t' : String}
    (hs : isASCII s) (ht : isASCII t) (hss : caseVariant s s') (htt : caseVariant t t') :
    EqualFold orbit s' t' = EqualFold orbit s t := by
  rw [EqualFold_ascii orbit s t hs ht,
    EqualFold_ascii orbit s' t' (caseVariant_isASCII hss hs) (caseVariant_isASCII htt ht),
    caseVariant_foldKey hss, caseVariant_foldKey htt]

theorem any_senderVariant (orbit : Nat → Nat → Bool) (m : Int) {address address' : String}
    (haddr : isASCII address) (hvar : caseVariant address address') :
    ∀ {txs txs' : List Result}, List.Forall₂ senderVariant txs txs' →
      (∀ tx ∈ txs, isASCII tx.Sender) →
      (txs'.any fun tx =>
        decide (tx.BlockNumber ≥ m) && EqualFold orbit tx.Sender address' && tx.Success)
      = (txs.any fun tx =>
        decide (tx.BlockNumber ≥ m) && EqualFold orbit tx.Sender address && tx.Success) := by
  intro txs txs' h
  induction h with
  | nil => intro _; rfl
  | @cons a b l l' hab _ ih =>
    intro hall
    obtain ⟨h1, _, h3, h4⟩ := hab
    simp only [List.any_cons]
    rw [ih (fun tx htx => hall tx (List.mem_cons_of_mem _ htx)), h1, h3,
      EqualFold_caseVariant orbit (hall a (List.mem_cons_self _ _)) haddr h4 hvar]

/-! ## Lemmas: the insertion sort meets the contract of `sort.Slice` -/

theorem sinkLeft_perm (x : Transaction) : ∀ l : List Transaction, (sinkLeft x l).Perm (x :: l)
  | [] => List.Perm.refl _
  | y :: ys => by
    unfold sinkLeft
    split
    · exact ((sinkLeft_perm x ys).cons y).trans (List.Perm.swap x y ys)
    · exact List.Perm.refl _

theorem sinkLeft_ascending (x : Transaction) :
    ∀ l : List Transaction, l.Pairwise (fun a b => ¬ less a b) →
      (sinkLeft x l).Pairwise (fun a b => ¬ less a b)
  | [], _ => by simp [sinkLeft]
  | y :: ys, h => by
    have hy := List.pairwise_cons.1 h
    unfold sinkLeft
    split
    · rename_i hxy
      refine List.pairwise_cons.2 ⟨?_, sinkLeft_ascending x ys hy.2⟩
      intro w hw
      rcases List.mem_cons.1 ((sinkLeft_perm x ys).subset hw) with rfl | hw
      · exact fun hyx => lt_asymm hxy hyx
      · exact hy.1 w hw
    · rename_i hxy
      refine List.pairwise_cons.2 ⟨?_, h⟩
      intro w hw
      rcases List.mem_cons.1 hw with rfl | hw
      · exact hxy
      · have hyw := hy.1 w hw
        unfold less at hxy hyw ⊢
        exact not_lt.2 (le_trans (not_lt.1 hxy) (not_lt.1 hyw))

theorem foldl_sinkLeft_perm : ∀ (l acc : List Transaction),
    (l.foldl (fun rev x => sinkLeft x rev) acc).Perm (l.reverse ++ acc)
  | [], acc => by simp
  | x :: l, acc => by
    simp only [List.foldl_cons, List.reverse_cons, List.append_assoc, List.singleton_append]
    exact (foldl_sinkLeft_perm l (sinkLeft x acc)).trans
      (List.Perm.append_left _ (sinkLeft_perm x acc))

theorem foldl_sinkLeft_ascending : ∀ (l acc : List Transaction),
    acc.Pairwise (fun a b => ¬ less a b) →
      (l.foldl (fun rev x => sinkLeft x rev) acc).Pairwise (fun a b => ¬ less a b)
  | [], _, h => h
  | x :: l, acc, h => foldl_sinkLeft_ascending l (sinkLeft x acc) (sinkLeft_ascending x acc h)

theorem sortSlice_spec : SortSliceSpec sortSlice := by
  intro l
  unfold sortSlice
  constructor
  · refine (List.reverse_perm _).trans ((foldl_sinkLeft_perm l []).trans ?_)
    simp
  · rw [List.pairwise_reverse]
    exact foldl_sinkLeft_ascending l [] List.Pairwise.nil

theorem SortSliceSpec.nil {srt : List Transaction → List Transaction} (h : SortSliceSpec srt) :
    srt [] = [] :=
  List.perm_nil.1 (h []).1

theorem SortSliceSpec.mem {srt : List Transaction → List Transaction} (h : SortSliceSpec srt)
    {l : List Transaction} {tx : Transaction} : tx ∈ srt l ↔ tx ∈ l :=
  (h l).1.mem_iff

/-! ## Lemmas: the replay loop -/

theorem SetString_setStringInPlace {s : String} {base : Nat} {v : Int}
    (h : SetString s base = some v) : setStringInPlace s base = v := by
  unfold SetString at h
  unfold setStringInPlace
  split at h
  · exact Option.some.inj h
  · exact absurd h (by simp)

theorem SetString_amount {tx : Transaction} (h : wellFormedAmount tx) :
    SetString (trimPrefix0x tx.Value) 16 = some (amount tx) := by
  unfold wellFormedAmount at h
  unfold amount
  cases hv : SetString (trimPrefix0x tx.Value) 16 with
  | none => rw [hv] at h; exact absurd h (by simp)
  | some v => rfl

theorem replay_takeWhile (cur : Int) (th : Option Int) (m : Int) :
    ∀ (l : List Transaction) (bal : Int),
      replay cur th m bal l = replay cur th m bal (l.takeWhile (inWindow m))
  | [], _ => rfl
  | tx :: rest, bal => by
    by_cases hw : tx.BlockNumber < m
    · have : inWindow m tx = false := by simp [inWindow, hw]
      simp [replay, hw, List.takeWhile_cons, this]
    · have hin : inWindow m tx = true := by simp [inWindow]; omega
      rw [List.takeWhile_cons, hin]
      simp only [if_true]
      unfold replay
      simp only [hw, if_false]
      cases SetString (trimPrefix0x tx.Value) 16 with
      | none => rfl
      | some value =>
        cases th with
        | none => rfl
        | some t =>
          simp only
          split <;> rw [replay_takeWhile cur (some t) m rest _]

theorem replay_inWindow (cur t m : Int) :
    ∀ (l : List Transaction) (bal : Int),
      (∀ tx ∈ l, inWindow m tx = true) → (∀ tx ∈ l, wellFormedAmount tx) →
      replay cur (some t) m bal l
        = .ok ((runningBalances bal l).any fun r => decide (crossed cur t r))
  | [], _, _, _ => by simp [replay, runningBalances]
  | tx :: rest, bal, hin, hwf => by
    have h1 : ¬ tx.BlockNumber < m := by
      have := hin tx (List.mem_cons_self _ _)
      simp [inWindow] at this
      omega
    have ih := replay_inWindow cur t m rest (applyTx bal tx)
      (fun x hx => hin x (List.mem_cons_of_mem _ hx))
      (fun x hx => hwf x (List.mem_cons_of_mem _ hx))
    unfold replay
    simp only [h1, if_false, SetString_amount (hwf tx (List.mem_cons_self _ _))]
    change (if crossed cur t (applyTx bal tx) then Except.ok true
      else replay cur (some t) m (applyTx bal tx) rest) = _
    rw [ih]
    simp only [runningBalances, List.any_cons]
    by_cases hc : crossed cur t (applyTx bal tx)
    · simp [hc]
    · simp [hc]

theorem senderSum_cons (tx : Transaction) (l : List Transaction) :
    senderSum (tx :: l)
      = (if tx.TransactionType = "Sender" then amount tx else 0) + senderSum l := by
  unfold senderSum
  by_cases h : tx.TransactionType = "Sender"
  · simp [List.filter_cons, h]
  · simp [List.filter_cons, h]

theorem otherSum_cons (tx : Transaction) (l : List Transaction) :
    otherSum (tx :: l)
      = (if tx.TransactionType = "Sender" then 0 else amount tx) + otherSum l := by
  unfold otherSum
  by_cases h : tx.TransactionType = "Sender"
  · simp [List.filter_cons, h]
  · simp [List.filter_cons, h]

theorem applyTx_sums (b : Int) (tx : Transaction) (l : List Transaction) :
    applyTx b tx - senderSum l + otherSum l
      = b - senderSum (tx :: l) + otherSum (tx :: l) := by
  rw [senderSum_cons, otherSum_cons]
  unfold applyTx
  split <;> omega

theorem mem_runningBalances_iff (r : Int) :
    ∀ (l : List Transaction) (b : Int),
      r ∈ runningBalances b l ↔
        ∃ k, 1 ≤ k ∧ k ≤ l.length ∧ r = b - senderSum (l.take k) + otherSum (l.take k)
  | [], b => by
    simp only [runningBalances, List.not_mem_nil, List.length_nil, false_iff]
    rintro ⟨k, h1, h2, _⟩
    omega
  | tx :: rest, b => by
    simp only [runningBalances, List.mem_cons, List.length_cons,
      mem_runningBalances_iff r rest (applyTx b tx)]
    constructor
    · rintro (h | ⟨k, h1, h2, h3⟩)
      · refine ⟨1, le_refl _, by omega, ?_⟩
        rw [h, List.take_succ_cons, List.take_zero, ← applyTx_sums]
        simp [senderSum, otherSum]
      · refine ⟨k + 1, by omega, by omega, ?_⟩
        rw [h3, List.take_succ_cons, applyTx_sums]
    · rintro ⟨k, h1, h2, h3⟩
      obtain ⟨j, rfl⟩ : ∃ j, k = j + 1 := ⟨k - 1, by omega⟩
      rw [List.take_succ_cons, ← applyTx_sums] at h3
      rcases Nat.eq_zero_or_pos j with hj | hj
      · left
        subst hj
        rw [h3]
        simp [senderSum, otherSum]
      · right
        exact ⟨j, hj, by omega, h3⟩

theorem checkThresholdCrossing_ok (srt : List Transaction → List Transaction) (h : Int)
    (hlo : -(2 ^ 63) + 3 ≤ h) (hhi : h < 2 ^ 63) (currentBalance : Balance)
    (threshold : Option Int) (txs : List Transaction) :
    checkThresholdCrossing srt (.ok h) currentBalance threshold txs
      = replay (setStringInPlace currentBalance.Amount 10) threshold (h - 3)
          (setStringInPlace currentBalance.Amount 10) ((srt txs).takeWhile (inWindow (h - 3))) := by
  have hw : wrap64 (h - 3) = h - 3 := wrap64_eq (by omega) (by omega)
  simp only [checkThresholdCrossing, hw]
  exact replay_takeWhile _ _ _ _ _

theorem mem_takeWhile_imp {p : Transaction → Bool} {tx : Transaction} :
    ∀ {l : List Transaction}, tx ∈ l.takeWhile p → tx ∈ l ∧ p tx = true
  | [], h => by simp at h
  | a :: l, h => by
    rw [List.takeWhile_cons] at h
    split at h
    · rename_i hp
      rcases List.mem_cons.1 h with rfl | h
      · exact ⟨List.mem_cons_self _ _, hp⟩
      · exact ⟨List.mem_cons_of_mem _ (mem_takeWhile_imp h).1, (mem_takeWhile_imp h).2⟩
    · simp at h

theorem checkThresholdCrossing_wellFormed (srt : List Transaction → List Transaction)
    (hsrt : SortSliceSpec srt) (h : Int) (hlo : -(2 ^ 63) + 3 ≤ h) (hhi : h < 2 ^ 63)
    (currentBalance : Balance) (b : Int) (hb : SetString currentBalance.Amount 10 = some b)
    (t : Int) (txs : List Transaction) (hwf : ∀ tx ∈ txs, wellFormedAmount tx) :
    checkThresholdCrossing srt (.ok h) currentBalance (some t) txs
      = .ok ((runningBalances b ((srt txs).takeWhile (inWindow (h - 3)))).any
          fun r => decide (crossed b t r)) := by
  rw [checkThresholdCrossing_ok srt h hlo hhi, SetString_setStringInPlace hb]
  apply replay_inWindow
  · intro tx htx
    exact (mem_takeWhile_imp htx).2
  · intro tx htx
    exact hwf tx (hsrt.mem.1 (mem_takeWhile_imp htx).1)

theorem takeWhile_inWindow_eq_self {m : Int} {l : List Transaction}
    (h : ∀ tx ∈ l, tx.BlockNumber ≥ m) : l.takeWhile (inWindow m) = l := by
  induction l with
  | nil => rfl
  | cons a l ih =>
    have ha : inWindow m a = true := by
      simp only [inWindow, decide_eq_true_eq]
      exact h a (List.mem_cons_self _ _)
    rw [List.takeWhile_cons, if_pos ha, ih (fun tx htx => h tx (List.mem_cons_of_mem _ htx))]
/-! ## Claims about `checkWalletInteraction` -/

/-- C1: `checkWalletInteraction` returns the error of the block-height query
when that query fails and no error otherwise; when the query yields the height
`h` it returns true if and only if some interaction has `BlockNumber ≥ h - 100`,
a sender equal to the address under `strings.EqualFold`, and `Success = true`.
A matching record at `h - 100` counts, one at `h - 101` does not, and one with
`Success = false` does not. -/
theorem checkWalletInteraction_spec (orbit : Nat → Nat → Bool) (h : Int)
    (hlo : -(2 ^ 63) + 100 ≤ h) (hhi : h < 2 ^ 63)
    (address : String) (interactions : List Result) :
    (∀ err, checkWalletInteraction orbit (.error err) address interactions = .error err) ∧
    (∃ b, checkWalletInteraction orbit (.ok h) address interactions = .ok b) ∧
    (checkWalletInteraction orbit (.ok h) address interactions = .ok true ↔
      ∃ tx ∈ interactions,
        tx.BlockNumber ≥ h - 100 ∧ EqualFold orbit tx.Sender address = true ∧
          tx.Success = true) ∧
    (∀ tx : Result, EqualFold orbit tx.Sender address = true →
      (tx.BlockNumber = h - 100 → tx.Success = true →
        checkWalletInteraction orbit (.ok h) address [tx] = .ok true) ∧
      (tx.BlockNumber = h - 101 →
        checkWalletInteraction orbit (.ok h) address [tx] = .ok false) ∧
      (tx.Success = false →
        checkWalletInteraction orbit (.ok h) address [tx] = .ok false)) := by
  have hw : wrap64 (h - 100) = h - 100 := wrap64_eq (by omega) (by omega)
  refine ⟨fun _ => rfl, ⟨_, rfl⟩, ?_, ?_⟩
  · simp only [checkWalletInteraction, hw, Except.ok.injEq, List.any_eq_true, Bool.and_eq_true,
      decide_eq_true_eq, and_assoc]
  · intro tx hfold
    simp only [checkWalletInteraction, hw, List.any_cons, List.any_nil, Bool.or_false, hfold,
      Except.ok.injEq]
    refine ⟨fun h1 h2 => ?_, fun h1 => ?_, fun h1 => ?_⟩
    · simp [h1, h2]
    · simp only [h1, ge_iff_le, Bool.and_true, Bool.decide_and, Bool.and_eq_false_imp,
        decide_eq_true_eq]
      intro h2
      omega
    · simp [h1]

/-- The theorem `checkWalletInteraction_spec` at the height 1000 with one
record of block 950. -/
theorem checkWalletInteraction_spec_witness :
    (-(2 ^ 63) + 100 ≤ (1000 : Int) ∧ (1000 : Int) < 2 ^ 63) ∧
    (checkWalletInteraction (fun _ _ => false) (.ok 1000) "0xABC"
        [⟨950, "0x01", "0xabc", true⟩] = .ok true ↔
      ∃ tx ∈ [(⟨950, "0x01", "0xabc", true⟩ : Result)],
        tx.BlockNumber ≥ 1000 - 100 ∧ EqualFold (fun _ _ => false) tx.Sender "0xABC" = true ∧
          tx.Success = true) :=
  ⟨by decide,
    (checkWalletInteraction_spec (fun _ _ => false) 1000 (by decide) (by decide) "0xABC"
      [⟨950, "0x01", "0xabc", true⟩]).2.2.1⟩

/-- C7: on ASCII strings `checkWalletInteraction` matches addresses without
regard to case: writing the queried address, or the sender of any record, in
its all-upper-case or all-lower-case form leaves the result unchanged; and
`"0xABC"` and `"0xabc"` are the same sender. -/
theorem checkWalletInteraction_case_insensitive (orbit : Nat → Nat → Bool)
    (cur : Except String Int) (address address' : String) (txs txs' : List Result)
    (haddr : isASCII address) (htxs : ∀ tx ∈ txs, isASCII tx.Sender)
    (hvar : caseVariant address address')
    (hrec : List.Forall₂ senderVariant txs txs') :
    checkWalletInteraction orbit cur address' txs'
      = checkWalletInteraction orbit cur address txs ∧
    EqualFold orbit "0xABC" "0xabc" = true := by
  constructor
  · cases cur with
    | error e => rfl
    | ok h =>
      simp only [checkWalletInteraction]
      rw [any_senderVariant orbit _ haddr hvar hrec htxs]
  · rw [EqualFold_ascii orbit _ _ (by decide) (by decide)]
    decide

/-- The theorem `checkWalletInteraction_case_insensitive` with the address
`"0xabc"` written in upper case and the sender `"0xAbC"` written in lower
case. -/
theorem checkWalletInteraction_case_insensitive_witness :
    (isASCII "0xabc" ∧ (∀ tx ∈ [(⟨950, "0x01", "0xAbC", true⟩ : Result)], isASCII tx.Sender) ∧
      caseVariant "0xabc" "0XABC" ∧
      List.Forall₂ senderVariant [(⟨950, "0x01", "0xAbC", true⟩ : Result)]
        [(⟨950, "0x01", "0xabc", true⟩ : Result)]) ∧
    checkWalletInteraction (fun _ _ => false) (.ok 1000) "0XABC" [⟨950, "0x01", "0xabc", true⟩]
      = checkWalletInteraction (fun _ _ => false) (.ok 1000) "0xabc"
          [⟨950, "0x01", "0xAbC", true⟩] :=
  ⟨⟨by decide, by decide, Or.inr (Or.inl (by decide)),
      List.Forall₂.cons ⟨rfl, rfl, rfl, Or.inr (Or.inr (by decide))⟩ List.Forall₂.nil⟩,
    (checkWalletInteraction_case_insensitive (fun _ _ => false) (.ok 1000) "0xabc" "0XABC"
      [⟨950, "0x01", "0xAbC", true⟩] [⟨950, "0x01", "0xabc", true⟩]
      (by decide) (by decide) (Or.inr (Or.inl (by decide)))
      (List.Forall₂.cons ⟨rfl, rfl, rfl, Or.inr (Or.inr (by decide))⟩ List.Forall₂.nil)).1⟩

/-! ## Claims about `checkThresholdCrossing` -/

/-- C9: on an empty transfer list `checkThresholdCrossing` returns false, for
every current balance, every threshold (a nil one too) and every outcome of
the block-height query. -/
theorem checkThresholdCrossing_nil (srt : List Transaction → List Transaction)
    (hsrt : SortSliceSpec srt) (queryCurrentBlock2 : Except String Int)
    (currentBalance : Balance) (threshold : Option Int) :
    checkThresholdCrossing srt queryCurrentBlock2 currentBalance threshold [] = .ok false := by
  unfold checkThresholdCrossing
  rw [hsrt.nil]
  cases queryCurrentBlock2 <;> rfl

/-- The theorem `checkThresholdCrossing_nil` for the insertion sort, the
balance 100, the threshold 150 and the block height 1000. -/
theorem checkThresholdCrossing_nil_witness :
    SortSliceSpec sortSlice ∧
    checkThresholdCrossing sortSlice (.ok 1000) ⟨"100"⟩ (some 150) [] = .ok false :=
  ⟨sortSlice_spec, checkThresholdCrossing_nil sortSlice sortSlice_spec (.ok 1000) ⟨"100"⟩ (some 150)⟩

/-- C10: with `s` the slice as `sort.Slice` leaves it (a rearrangement of the
transfers in which block times never increase) and `p` the longest prefix of
`s` whose transfers have `BlockNumber ≥ h - 3`, `checkThresholdCrossing`
returns, and it returns true if and only if for some `k` with
`1 ≤ k ≤ length p` the running balance
`r = b - (sum of the "Sender" amounts among the first k of p)
  + (sum of the other amounts among the first k of p)`
satisfies `(r > t and b ≤ t) or (r < t and b ≥ t)`; the test is against the
current balance `b`. -/
theorem checkThresholdCrossing_iff_running_balance
    (srt : List Transaction → List Transaction) (hsrt : SortSliceSpec srt)
    (h : Int) (hlo : -(2 ^ 63) + 3 ≤ h) (hhi : h < 2 ^ 63)
    (currentBalance : Balance) (b : Int) (hb : SetString currentBalance.Amount 10 = some b)
    (t : Int) (txs : List Transaction) (hwf : ∀ tx ∈ txs, wellFormedAmount tx) :
    (srt txs).Perm txs ∧
    (srt txs).Pairwise (fun x y => ¬ x.BlockTime.data < y.BlockTime.data) ∧
    (∃ res, checkThresholdCrossing srt (.ok h) currentBalance (some t) txs = .ok res) ∧
    (checkThresholdCrossing srt (.ok h) currentBalance (some t) txs = .ok true ↔
      ∃ k, 1 ≤ k ∧
        k ≤ ((srt txs).takeWhile fun tx => decide (tx.BlockNumber ≥ h - 3)).length ∧
        ((b - senderSum (((srt txs).takeWhile fun tx => decide (tx.BlockNumber ≥ h - 3)).take k)
            + otherSum (((srt txs).takeWhile fun tx => decide (tx.BlockNumber ≥ h - 3)).take k)
              > t ∧ b ≤ t) ∨
         (b - senderSum (((srt txs).takeWhile fun tx => decide (tx.BlockNumber ≥ h - 3)).take k)
            + otherSum (((srt txs).takeWhile fun tx => decide (tx.BlockNumber ≥ h - 3)).take k)
              < t ∧ b ≥ t))) := by
  have hres := checkThresholdCrossing_wellFormed srt hsrt h hlo hhi currentBalance b hb t txs hwf
  refine ⟨(hsrt txs).1, (hsrt txs).2, ⟨_, hres⟩, ?_⟩
  rw [hres]
  simp only [Except.ok.injEq, List.any_eq_true, decide_eq_true_eq, mem_runningBalances_iff]
  constructor
  · rintro ⟨r, ⟨k, h1, h2, rfl⟩, hc⟩
    exact ⟨k, h1, h2, hc⟩
  · rintro ⟨k, h1, h2, hc⟩
    exact ⟨_, ⟨k, h1, h2, rfl⟩, hc⟩

/-- The theorem `checkThresholdCrossing_iff_running_balance` for the insertion
sort at height 1000, balance 100, threshold 150 and two transfers of block
1000 and 999: the second running balance, 100 - 16 + 96 = 180, is above the
threshold. -/
theorem checkThresholdCrossing_iff_running_balance_witness :
    (SortSliceSpec sortSlice ∧ -(2 ^ 63) + 3 ≤ (1000 : Int) ∧ (1000 : Int) < 2 ^ 63 ∧
      SetString (Balance.mk "100").Amount 10 = some 100 ∧
      ∀ tx ∈ [transfer "Sender" "0x10" "2024-09-13 10:00:12" 1000,
          transfer "Receiver" "0x60" "2024-09-13 10:00:00" 999], wellFormedAmount tx) ∧
    checkThresholdCrossing sortSlice (.ok 1000) ⟨"100"⟩ (some 150)
      [transfer "Sender" "0x10" "2024-09-13 10:00:12" 1000,
        transfer "Receiver" "0x60" "2024-09-13 10:00:00" 999] = .ok true :=
  ⟨⟨sortSlice_spec, by decide, by decide, by decide, by decide⟩,
    (checkThresholdCrossing_iff_running_balance sortSlice sortSlice_spec 1000 (by decide)
      (by decide) ⟨"100"⟩ 100 (by decide) 150
      [transfer "Sender" "0x10" "2024-09-13 10:00:12" 1000,
        transfer "Receiver" "0x60" "2024-09-13 10:00:00" 999] (by decide)).2.2.2.2
      ⟨2, by decide, by decide, by decide⟩⟩

/-- C8, as the code has it: when every transfer is inside the window and
`checkThresholdCrossing` returns true, the replayed trajectory (the current
balance followed by each running balance) contains one balance strictly above
the threshold and one at or below it, or one strictly below it and one at or
above it; and when the current balance differs from the threshold and every
balance of the trajectory is `≤` the threshold, or every one is `≥` it, the
result is false. -/
theorem checkThresholdCrossing_sides
    (srt : List Transaction → List Transaction) (hsrt : SortSliceSpec srt)
    (h : Int) (hlo : -(2 ^ 63) + 3 ≤ h) (hhi : h < 2 ^ 63)
    (currentBalance : Balance) (b : Int) (hb : SetString currentBalance.Amount 10 = some b)
    (t : Int) (txs : List Transaction) (hwf : ∀ tx ∈ txs, wellFormedAmount tx)
    (hin : ∀ tx ∈ txs, tx.BlockNumber ≥ h - 3) :
    (checkThresholdCrossing srt (.ok h) currentBalance (some t) txs = .ok true →
      ((∃ x ∈ trajectory b (srt txs), x > t) ∧ (∃ y ∈ trajectory b (srt txs), y ≤ t)) ∨
      ((∃ x ∈ trajectory b (srt txs), x < t) ∧ (∃ y ∈ trajectory b (srt txs), y ≥ t))) ∧
    (b ≠ t →
      ((∀ x ∈ trajectory b (srt txs), x ≤ t) ∨ (∀ x ∈ trajectory b (srt txs), x ≥ t)) →
      checkThresholdCrossing srt (.ok h) currentBalance (some t) txs = .ok false) := by
  have hres := checkThresholdCrossing_wellFormed srt hsrt h hlo hhi currentBalance b hb t txs hwf
  rw [takeWhile_inWindow_eq_self (fun tx htx => hin tx (hsrt.mem.1 htx))] at hres
  rw [hres]
  constructor
  · intro htrue
    simp only [Except.ok.injEq, List.any_eq_true, decide_eq_true_eq] at htrue
    obtain ⟨r, hr, hc⟩ := htrue
    have hrt : r ∈ trajectory b (srt txs) := List.mem_cons_of_mem _ hr
    have hbt : b ∈ trajectory b (srt txs) := List.mem_cons_self _ _
    rcases hc with ⟨h1, h2⟩ | ⟨h1, h2⟩
    · exact Or.inl ⟨⟨r, hrt, h1⟩, ⟨b, hbt, h2⟩⟩
    · exact Or.inr ⟨⟨r, hrt, h1⟩, ⟨b, hbt, h2⟩⟩
  · intro hne hall
    simp only [Except.ok.injEq, List.any_eq_false, decide_eq_true_eq]
    intro r hr hc
    have hrt : r ∈ trajectory b (srt txs) := List.mem_cons_of_mem _ hr
    have hbt : b ∈ trajectory b (srt txs) := List.mem_cons_self _ _
    rcases hall with hall | hall
    · have := hall r hrt
      have := hall b hbt
      rcases hc with ⟨h1, h2⟩ | ⟨h1, h2⟩ <;> omega
    · have := hall r hrt
      have := hall b hbt
      rcases hc with ⟨h1, h2⟩ | ⟨h1, h2⟩ <;> omega

/-- The theorem `checkThresholdCrossing_sides` for the insertion sort at height
1000, balance 100, threshold 150 and one in-window transfer of 16 to the
wallet: the trajectory 100, 116 stays below the threshold and the result is
false. -/
theorem checkThresholdCrossing_sides_witness :
    (SortSliceSpec sortSlice ∧ -(2 ^ 63) + 3 ≤ (1000 : Int) ∧ (1000 : Int) < 2 ^ 63 ∧
      SetString (Balance.mk "100").Amount 10 = some 100 ∧
      (∀ tx ∈ [transfer "Receiver" "0x10" "2024-09-13 10:00:12" 1000], wellFormedAmount tx) ∧
      (∀ tx ∈ [transfer "Receiver" "0x10" "2024-09-13 10:00:12" 1000],
        tx.BlockNumber ≥ 1000 - 3)) ∧
    checkThresholdCrossing sortSlice (.ok 1000) ⟨"100"⟩ (some 150)
      [transfer "Receiver" "0x10" "2024-09-13 10:00:12" 1000] = .ok false :=
  ⟨⟨sortSlice_spec, by decide, by decide, by decide, by decide, by decide⟩,
    (checkThresholdCrossing_sides sortSlice sortSlice_spec 1000 (by decide) (by decide)
      ⟨"100"⟩ 100 (by decide) 150 [transfer "Receiver" "0x10" "2024-09-13 10:00:12" 1000]
      (by decide) (by decide)).2 (by decide) (Or.inl (by decide))⟩

/-- C8 fails as stated: with the current balance equal to the threshold 150 and
one in-window transfer of 10 to the wallet, `checkThresholdCrossing` returns
true although every balance of the trajectory 150, 160 is `≥` the threshold and
none is strictly below it. -/
theorem balance_at_threshold_counterexample :
    checkThresholdCrossing sortSlice (.ok 1000) ⟨"150"⟩ (some 150)
      [transfer "Receiver" "0xa" "2024-09-13 10:00:12" 1000] = .ok true ∧
    (∀ x ∈ trajectory 150 (sortSlice [transfer "Receiver" "0xa" "2024-09-13 10:00:12" 1000]),
      x ≥ 150) ∧
    ¬ ∃ x ∈ trajectory 150 (sortSlice [transfer "Receiver" "0xa" "2024-09-13 10:00:12" 1000]),
      x < 150 := by
  decide

/-- C3 (the code at a transfer list whose block times disagree with the block
numbers): at height 1000 with balance 100 and threshold 150, a transfer of
block 990 that carries the latest block time is sorted first and ends the loop
before the transfer of block 1000 is looked at, so the result is false; on the
list with the transfer of block 990 removed the transfer of block 1000 is
replayed and the result is true. -/
theorem checkThresholdCrossing_stale_block_time :
    sortSlice [transfer "Receiver" "0x3c" "2024-09-13 10:00:12" 990,
        transfer "Receiver" "0x3c" "2024-09-13 10:00:00" 1000]
      = [transfer "Receiver" "0x3c" "2024-09-13 10:00:12" 990,
        transfer "Receiver" "0x3c" "2024-09-13 10:00:00" 1000] ∧
    checkThresholdCrossing sortSlice (.ok 1000) ⟨"100"⟩ (some 150)
      [transfer "Receiver" "0x3c" "2024-09-13 10:00:12" 990,
        transfer "Receiver" "0x3c" "2024-09-13 10:00:00" 1000] = .ok false ∧
    ([transfer "Receiver" "0x3c" "2024-09-13 10:00:12" 990,
        transfer "Receiver" "0x3c" "2024-09-13 10:00:00" 1000].filter
          fun tx => decide (tx.BlockNumber ≥ 1000 - 3))
      = [transfer "Receiver" "0x3c" "2024-09-13 10:00:00" 1000] ∧
    checkThresholdCrossing sortSlice (.ok 1000) ⟨"100"⟩ (some 150)
      ([transfer "Receiver" "0x3c" "2024-09-13 10:00:12" 990,
        transfer "Receiver" "0x3c" "2024-09-13 10:00:00" 1000].filter
          fun tx => decide (tx.BlockNumber ≥ 1000 - 3)) = .ok true := by
  decide

/-- C2 (the code at the two scenarios): at height 1000 with threshold 150, the
balance 100 and one in-window transfer of 60 to the wallet give the running
balance 160 and the answer true, and the balance 140 and one in-window
`"Sender"` transfer of 100 give the running balance 40 and the answer false. -/
theorem checkThresholdCrossing_scenarios :
    runningBalances 100 [transfer "Receiver" "0x3c" "2024-09-13 10:00:12" 1000] = [160] ∧
    checkThresholdCrossing sortSlice (.ok 1000) ⟨"100"⟩ (some 150)
      [transfer "Receiver" "0x3c" "2024-09-13 10:00:12" 1000] = .ok true ∧
    runningBalances 140 [transfer "Sender" "0x64" "2024-09-13 10:00:12" 1000] = [40] ∧
    checkThresholdCrossing sortSlice (.ok 1000) ⟨"140"⟩ (some 150)
      [transfer "Sender" "0x64" "2024-09-13 10:00:12" 1000] = .ok false := by
  decide

/-- C4 (the code when the block height cannot be fetched): for every balance,
threshold and transfer list `checkThresholdCrossing` returns false, and
`handleCheckWallet` answers `threshold_crossed = false`. -/
theorem checkThresholdCrossing_fetch_failure (srt : List Transaction → List Transaction)
    (err : String) (req : Request) (currentBalance : Balance) (threshold : Option Int)
    (txs : List Transaction) :
    checkThresholdCrossing srt (.error err) currentBalance threshold txs = .ok false ∧
    handleCheckWallet srt (.ok req) (fun _ => .ok currentBalance) (fun _ => .ok ⟨txs⟩)
      (.error err) = .ok (.thresholdCrossed false) :=
  ⟨rfl, rfl⟩

/-- C5 (the code at the threshold `"abc"`): the parse gives a nil threshold;
with no transfer `handleCheckWallet` answers `threshold_crossed = false`, and
with one in-window transfer it panics on the nil pointer. -/
theorem handleCheckWallet_malformed_threshold :
    SetString "abc" 10 = none ∧
    handleCheckWallet sortSlice (.ok ⟨"abc", "0x01"⟩) (fun _ => .ok ⟨"100"⟩)
      (fun _ => .ok ⟨[]⟩) (.ok 1000) = .ok (.thresholdCrossed false) ∧
    handleCheckWallet sortSlice (.ok ⟨"abc", "0x01"⟩) (fun _ => .ok ⟨"100"⟩)
      (fun _ => .ok ⟨[transfer "Receiver" "0x3c" "2024-09-13 10:00:12" 1000]⟩) (.ok 1000)
      = .error Panic.nilDereference := by
  decide

/-- C6 (the code at a malformed amount): an in-window transfer whose value is
`"0x"` or `"0xzz"` gives a nil amount, and `checkThresholdCrossing` panics on
the nil pointer, also when a later transfer is well formed. -/
theorem checkThresholdCrossing_malformed_amount :
    SetString (trimPrefix0x "0x") 16 = none ∧
    SetString (trimPrefix0x "0xzz") 16 = none ∧
    checkThresholdCrossing sortSlice (.ok 1000) ⟨"100"⟩ (some 150)
      [transfer "Receiver" "0x" "2024-09-13 10:00:12" 1000] = .error Panic.nilDereference ∧
    checkThresholdCrossing sortSlice (.ok 1000) ⟨"100"⟩ (some 150)
      [transfer "Receiver" "0xzz" "2024-09-13 10:00:12" 1000,
        transfer "Receiver" "0x3c" "2024-09-13 10:00:00" 999] = .error Panic.nilDereference := by
  decide


end GoAx
